import Mathlib

/-!
Verification of the sentence-budget filter in `src/filter.py`.

The program trims two-column seq2seq data: each side of a row is segmented
into sentences by an external segmenter, then `filter_sentences` greedily
keeps sentences from one end of the document (the tail for the source
column, the head for the target column) under a word budget `max_words`.

A sentence is modelled by what the code observes of a spaCy span: its
token count (`len(sentence)`) and its surface text (`str(sentence)`).
-/

/-- A segmented sentence as `filter_sentences` consumes it:
`word_count` is `len(sentence)` and `text` is `str(sentence)`. -/
structure Sentence where
  word_count : Nat
  text : String
  deriving DecidableEq, Repr

/-- The greedy accumulation loop of `filter_sentences`
(src/filter.py lines 31-39): starting from running count `word_count`,
append the next sentence while `word_count == 0` or
`word_count + num_words <= max_words`, otherwise `break`.
The loop body appends `str(sentence)`; here the sentence itself is kept
and texts are extracted at join time, which is observationally the same. -/
def select (sentences : List Sentence) (word_count max_words : Nat) : List Sentence :=
  match sentences with
  | [] => []
  | s :: rest =>
    if word_count = 0 ∨ word_count + s.word_count ≤ max_words then
      s :: select rest (word_count + s.word_count) max_words
    else []

/-- Python's `' '.join`. -/
def joinWithSpace (lines : List String) : String :=
  match lines with
  | [] => ""
  | [x] => x
  | x :: xs => x ++ " " ++ joinWithSpace xs

/-- Shallow embedding of `filter_sentences (sentences, max_words, src)`
(src/filter.py lines 22-44): reverse the sequence when `src` (RETAIN_TAIL),
run the greedy loop from running count 0, re-reverse the selected lines
when `src`, and join with a single space. -/
def filter_sentences (sentences : List Sentence) (max_words : Nat) (src : Bool) : String :=
  let seq := if src then sentences.reverse else sentences
  let lines := (select seq 0 max_words).map Sentence.text
  let ordered := if src then lines.reverse else lines
  joinWithSpace ordered

/-- Total word count of a sentence list. -/
def wsum (l : List Sentence) : Nat := (l.map Sentence.word_count).sum

/-- One data row of `main` (src/filter.py lines 106-120): a row whose
column count is not 2 raises
`AssertionError("Expected 2 cols (src, tgt). Received: {n}")`; otherwise
column 0 is filtered with `src=True` (RETAIN_TAIL) and column 1 with
`src=False` (RETAIN_HEAD), both with the configured `maxWords`, and the
record `[src_filt, tgt_filt]` is written. `seg` abstracts the external
segmenter `nlp(...).sents`. -/
def processRow (seg : String → List Sentence) (maxWords : Nat)
    (row : List String) : Except String (List String) :=
  if row.length = 2 then
    Except.ok [filter_sentences (seg (row.getD 0 "")) maxWords true,
               filter_sentences (seg (row.getD 1 "")) maxWords false]
  else
    Except.error ("Expected 2 cols (src, tgt). Received: " ++ toString row.length)

/-- The row loop of `main`: data rows are processed strictly in order and
the first failing row aborts the whole run. -/
def processRows (seg : String → List Sentence) (maxWords : Nat)
    (rows : List (List String)) : Except String (List (List String)) :=
  match rows with
  | [] => Except.ok []
  | r :: rs =>
    match processRow seg maxWords r with
    | Except.error e => Except.error e
    | Except.ok out =>
      match processRows seg maxWords rs with
      | Except.error e => Except.error e
      | Except.ok rest => Except.ok (out :: rest)

/-- The accumulation loop as claim C2 words it: append while the selection
list itself is still empty (tracked by `isEmpty`), or the candidate fits
the budget. This differs from `select` exactly when a sentence with word
count 0 has already been appended: then the selection is non-empty but the
running count is still 0. Used only for comparison against `select`. -/
def selectClaim (sentences : List Sentence) (isEmpty : Bool)
    (word_count max_words : Nat) : List Sentence :=
  match sentences with
  | [] => []
  | s :: rest =>
    if isEmpty = true ∨ word_count + s.word_count ≤ max_words then
      s :: selectClaim rest false (word_count + s.word_count) max_words
    else []

/-- `filter_sentences` as claim C2 words its loop. -/
def filter_sentences_claim (sentences : List Sentence) (max_words : Nat)
    (src : Bool) : String :=
  let seq := if src then sentences.reverse else sentences
  let lines := (selectClaim seq true 0 max_words).map Sentence.text
  let ordered := if src then lines.reverse else lines
  joinWithSpace ordered

/-! Sanity checks: the example scenarios of spec section 8. -/

example :
    filter_sentences
      [⟨3, "The cat sat."⟩, ⟨3, "It was happy."⟩, ⟨3, "Birds flew by."⟩]
      5 false = "The cat sat." := by decide

example :
    filter_sentences
      [⟨3, "The cat sat."⟩, ⟨3, "It was happy."⟩, ⟨3, "Birds flew by."⟩]
      5 true = "Birds flew by." := by decide

example :
    filter_sentences [⟨30, "Averylongsentencewithmanywordsexceedingbudget"⟩]
      5 false = "Averylongsentencewithmanywordsexceedingbudget" := by decide

example : filter_sentences [] 10 true = "" := by decide

example :
    filter_sentences [⟨4, "a b c d."⟩, ⟨4, "e f g h."⟩] 20 false
      = "a b c d. e f g h." := by decide

/-! ### Basic lemmas -/

@[simp]
theorem wsum_nil : wsum [] = 0 := rfl

@[simp]
theorem wsum_cons (s : Sentence) (l : List Sentence) :
    wsum (s :: l) = s.word_count + wsum l := by
  simp [wsum]

theorem wsum_reverse (l : List Sentence) : wsum l.reverse = wsum l := by
  simp [wsum, List.map_reverse, List.sum_reverse]

/-- The greedy loop selects a prefix of its input, every selected step
passed the loop test against the running count at that step, and if the
loop stopped early the next candidate failed the test. -/
theorem select_spec (mw : Nat) (l : List Sentence) : ∀ wc,
    ∃ k, k ≤ l.length ∧
      select l wc mw = l.take k ∧
      (∀ i, i < k →
        wc + wsum (l.take i) = 0 ∨
        wc + wsum (l.take i) + (l.getD i ⟨0, ""⟩).word_count ≤ mw) ∧
      (k < l.length →
        ¬(wc + wsum (l.take k) = 0 ∨
          wc + wsum (l.take k) + (l.getD k ⟨0, ""⟩).word_count ≤ mw)) := by
  induction l with
  | nil =>
    intro wc
    exact ⟨0, by simp [select]⟩
  | cons s rest ih =>
    intro wc
    by_cases hc : wc = 0 ∨ wc + s.word_count ≤ mw
    · obtain ⟨k, hk, hsel, hstep, hstop⟩ := ih (wc + s.word_count)
      refine ⟨k + 1, by simpa using hk, ?_, ?_, ?_⟩
      · simp [select, hc, hsel]
      · intro i hi
        cases i with
        | zero => simpa using hc
        | succ j =>
          have hj : j < k := Nat.lt_of_succ_lt_succ hi
          have hs := hstep j hj
          simp only [List.take_succ_cons, wsum_cons, List.getD_cons_succ]
          omega
      · intro hlen
        have hklen : k < rest.length := Nat.lt_of_succ_lt_succ hlen
        have hs := hstop hklen
        simp only [List.take_succ_cons, wsum_cons, List.getD_cons_succ]
        omega
    · refine ⟨0, Nat.zero_le _, ?_, ?_, ?_⟩
      · simp [select, hc]
      · intro i hi
        omega
      · intro _
        simpa using hc

/-- The greedy loop selects a prefix of its input. -/
theorem select_eq_take (l : List Sentence) (wc mw : Nat) :
    ∃ k, k ≤ l.length ∧ select l wc mw = l.take k := by
  obtain ⟨k, hk, hsel, -, -⟩ := select_spec mw l wc
  exact ⟨k, hk, hsel⟩

/-- Every selected sentence comes from the input. -/
theorem select_subset (l : List Sentence) (wc mw : Nat) :
    ∀ x ∈ select l wc mw, x ∈ l := by
  obtain ⟨k, -, hsel⟩ := select_eq_take l wc mw
  intro x hx
  rw [hsel] at hx
  exact List.take_subset k l hx

/-- Budget invariant of the loop: whenever the selection is non-empty, the
running count just before the last append (start count plus all selected
word counts except the last) is at most the budget. -/
theorem select_dropLast_le (mw : Nat) (l : List Sentence) : ∀ wc,
    select l wc mw ≠ [] → wc + wsum (select l wc mw).dropLast ≤ mw := by
  induction l with
  | nil =>
    intro wc h
    simp [select] at h
  | cons s rest ih =>
    intro wc h
    by_cases hc : wc = 0 ∨ wc + s.word_count ≤ mw
    · rw [select, if_pos hc] at h ⊢
      rcases hinner : select rest (wc + s.word_count) mw with - | ⟨y, ys⟩
      · simp only [hinner, List.dropLast_single, wsum_nil]
        omega
      · have hne : select rest (wc + s.word_count) mw ≠ [] := by
          rw [hinner]
          simp
        have hih := ih (wc + s.word_count) hne
        rw [hinner] at hih
        rw [List.dropLast_cons₂, wsum_cons]
        omega
    · rw [select, if_neg hc] at h
      exact absurd rfl h

/-- If everything fits the budget, the loop keeps everything. -/
theorem select_all (mw : Nat) (l : List Sentence) : ∀ wc,
    wc + wsum l ≤ mw → select l wc mw = l := by
  induction l with
  | nil =>
    intro wc _
    rfl
  | cons s rest ih =>
    intro wc hle
    simp only [wsum_cons] at hle
    have hc : wc = 0 ∨ wc + s.word_count ≤ mw := Or.inr (by omega)
    rw [select, if_pos hc, ih (wc + s.word_count) (by omega)]

/-- Once the running count is positive, the whole remaining selection stays
within the budget (counting the start value). -/
theorem select_pos_le (mw : Nat) (l : List Sentence) : ∀ wc, 0 < wc →
    select l wc mw = [] ∨ wc + wsum (select l wc mw) ≤ mw := by
  induction l with
  | nil =>
    intro wc _
    exact Or.inl rfl
  | cons s rest ih =>
    intro wc hwc
    by_cases hc : wc = 0 ∨ wc + s.word_count ≤ mw
    · have hfit : wc + s.word_count ≤ mw := by omega
      rw [select, if_pos hc]
      rcases ih (wc + s.word_count) (by omega) with hnil | hle
      · rw [hnil]
        simp only [wsum_cons, wsum_nil]
        omega
      · right
        simp only [wsum_cons]
        omega
    · rw [select, if_neg hc]
      exact Or.inl rfl

theorem select_cons_zero (s : Sentence) (rest : List Sentence) (mw : Nat) :
    select (s :: rest) 0 mw = s :: select rest s.word_count mw := by
  simp [select]

/-- `' '.join` of a non-empty list starts with the first element. -/
theorem joinWithSpace_cons (x : String) (xs : List String) :
    ∃ r, joinWithSpace (x :: xs) = x ++ r := by
  cases xs with
  | nil => exact ⟨"", by simp [joinWithSpace]⟩
  | cons y ys =>
    exact ⟨" " ++ joinWithSpace (y :: ys), by
      simp [joinWithSpace, String.append_assoc]⟩

theorem str_append_ne_empty (s t : String) (h : s ≠ "") : s ++ t ≠ "" := by
  intro he
  apply h
  have hlen : (s ++ t).length = 0 := by rw [he]; rfl
  rw [String.length_append] at hlen
  have hs : s.length = 0 := by omega
  cases s with
  | mk data =>
    simp [String.length] at hs
    simp [hs]

theorem filter_sentences_head (ss : List Sentence) (mw : Nat) :
    filter_sentences ss mw false =
      joinWithSpace ((select ss 0 mw).map Sentence.text) := rfl

theorem filter_sentences_tail (ss : List Sentence) (mw : Nat) :
    filter_sentences ss mw true =
      joinWithSpace (((select ss.reverse 0 mw).map Sentence.text).reverse) := rfl

/-- With `src = True`, the re-reversed selection is a contiguous suffix of
the original document, text for text. -/
theorem select_tail_suffix (ss : List Sentence) (mw : Nat) :
    ∃ n, ((select ss.reverse 0 mw).map Sentence.text).reverse =
      (ss.drop n).map Sentence.text := by
  obtain ⟨k, hk, hsel⟩ := select_eq_take ss.reverse 0 mw
  refine ⟨ss.length - k, ?_⟩
  rw [hsel, ← List.map_reverse, List.take_reverse, List.reverse_reverse]

/-- A non-empty input always yields a non-empty greedy selection, because
the running count starts at 0 and the loop test accepts when it is 0. -/
theorem select_ne_nil (l : List Sentence) (mw : Nat) (h : l ≠ []) :
    select l 0 mw ≠ [] := by
  cases l with
  | nil => exact absurd rfl h
  | cons s rest =>
    rw [select_cons_zero]
    simp

/-- If every sentence has a positive word count and more than one sentence
was selected, the entire selection fits the budget. -/
theorem select_budget_of_pos (mw : Nat) (l : List Sentence)
    (hpos : ∀ s ∈ l, 0 < s.word_count)
    (h : 1 < (select l 0 mw).length) :
    wsum (select l 0 mw) ≤ mw := by
  cases l with
  | nil => simp [select] at h
  | cons s rest =>
    rw [select_cons_zero] at h ⊢
    have hspos : 0 < s.word_count := hpos s (by simp)
    rcases select_pos_le mw rest s.word_count hspos with hnil | hle
    · rw [hnil] at h
      simp at h
    · rw [wsum_cons]
      omega

/-! ### Claim theorems -/

/-- C6: `filter_sentences` applied to the empty sentence sequence returns
the empty string, for every budget and either direction. -/
theorem C6_empty_input (mw : Nat) (src : Bool) :
    filter_sentences [] mw src = "" := by
  cases src <;> rfl

/-- C4: for every sentence sequence and budget, `src = True` (RETAIN_TAIL)
produces the join of a contiguous suffix of the original sequence and
`src = False` (RETAIN_HEAD) the join of a contiguous prefix, both in
original document order (the RETAIN_TAIL selection is re-reversed before
joining). -/
theorem C4_direction_and_order (ss : List Sentence) (mw : Nat) :
    (∃ n, filter_sentences ss mw true =
      joinWithSpace ((ss.drop n).map Sentence.text)) ∧
    (∃ n, filter_sentences ss mw false =
      joinWithSpace ((ss.take n).map Sentence.text)) := by
  constructor
  · obtain ⟨n, hn⟩ := select_tail_suffix ss mw
    exact ⟨n, by rw [filter_sentences_tail, hn]⟩
  · obtain ⟨k, hk, hsel⟩ := select_eq_take ss 0 mw
    exact ⟨k, by rw [filter_sentences_head, hsel, List.map_take]⟩

/-- C5: if `max_words` is at least the total word count, the output is the
join of every sentence's text with a single space, in original order. -/
theorem C5_saturation (ss : List Sentence) (mw : Nat) (src : Bool)
    (h : wsum ss ≤ mw) :
    filter_sentences ss mw src = joinWithSpace (ss.map Sentence.text) := by
  cases src
  · rw [filter_sentences_head, select_all mw ss 0 (by omega)]
  · rw [filter_sentences_tail,
      select_all mw ss.reverse 0 (by rw [wsum_reverse]; omega),
      ← List.map_reverse, List.reverse_reverse]

theorem C5_saturation_witness :
    wsum [⟨2, "a b."⟩, ⟨3, "c d e."⟩] ≤ 10 ∧
    filter_sentences [⟨2, "a b."⟩, ⟨3, "c d e."⟩] 10 true =
      joinWithSpace (([⟨2, "a b."⟩, ⟨3, "c d e."⟩] : List Sentence).map Sentence.text) :=
  ⟨by decide, C5_saturation [⟨2, "a b."⟩, ⟨3, "c d e."⟩] 10 true (by decide)⟩

/-- C3: in either direction, if the greedy selection list (in accumulation
order: iteration order of the loop, which is document order for
RETAIN_HEAD and reversed document order for RETAIN_TAIL) holds more than
one sentence, the cumulative word count of all selected sentences except
the last-accumulated one is at most `max_words`. -/
theorem C3_budget_without_last (ss : List Sentence) (mw : Nat) (src : Bool)
    (h : 1 < (select (if src then ss.reverse else ss) 0 mw).length) :
    wsum ((select (if src then ss.reverse else ss) 0 mw).dropLast) ≤ mw := by
  have hne : select (if src then ss.reverse else ss) 0 mw ≠ [] := by
    intro he
    rw [he] at h
    simp at h
  have hdl := select_dropLast_le mw (if src then ss.reverse else ss) 0 hne
  simpa using hdl

theorem C3_budget_without_last_witness :
    1 < (select [⟨2, "a"⟩, ⟨3, "b"⟩] 0 5).length ∧
    wsum ((select [⟨2, "a"⟩, ⟨3, "b"⟩] 0 5).dropLast) ≤ 5 :=
  ⟨by decide, C3_budget_without_last [⟨2, "a"⟩, ⟨3, "b"⟩] 5 false (by decide)⟩

/-- C10: when every sentence has a positive word count, a selection of
more than one sentence fits the budget in full, the last selected
sentence included (in either direction; `wsum` is order-independent, so
this also bounds the re-reversed RETAIN_TAIL selection). -/
theorem C10_full_selection_budget (ss : List Sentence) (mw : Nat) (src : Bool)
    (hpos : ∀ s ∈ ss, 0 < s.word_count)
    (h : 1 < (select (if src then ss.reverse else ss) 0 mw).length) :
    wsum (select (if src then ss.reverse else ss) 0 mw) ≤ mw := by
  apply select_budget_of_pos mw _ _ h
  intro s hs
  apply hpos
  cases src
  · simpa using hs
  · simpa using hs

theorem C10_full_selection_budget_witness :
    (∀ s ∈ ([⟨2, "a"⟩, ⟨3, "b"⟩] : List Sentence), 0 < s.word_count) ∧
    wsum (select [⟨2, "a"⟩, ⟨3, "b"⟩] 0 5) ≤ 5 :=
  ⟨by decide, C10_full_selection_budget [⟨2, "a"⟩, ⟨3, "b"⟩] 5 false (by decide) (by decide)⟩

/-- C1 as stated is false: a sentence may have an empty surface text, and
then the guaranteed non-empty selection still joins to the empty string.
Here the input is non-empty yet the output is `""`. -/
theorem C1_counterexample :
    ([⟨3, ""⟩] : List Sentence) ≠ [] ∧ filter_sentences [⟨3, ""⟩] 5 false = "" :=
  ⟨by decide, by decide⟩

/-- C1 (amended): for a non-empty sentence sequence whose sentences all
have non-empty text, any budget and either direction, the output is a
non-empty string containing the text of at least one input sentence; and
a single sentence, even one whose word count exceeds the budget, is
returned in full. -/
theorem C1_nonempty_output (ss : List Sentence) (mw : Nat) (src : Bool)
    (h1 : ss ≠ []) (h2 : ∀ s ∈ ss, s.text ≠ "") :
    filter_sentences ss mw src ≠ "" ∧
    (∃ s ∈ ss, ∃ a b, filter_sentences ss mw src = a ++ s.text ++ b) ∧
    (∀ s : Sentence, ss = [s] → filter_sentences ss mw src = s.text) := by
  have key : ∀ l : List String, l ≠ [] → (∀ y ∈ l, ∃ s ∈ ss, y = s.text) →
      joinWithSpace l ≠ "" ∧
      ∃ s ∈ ss, ∃ a b, joinWithSpace l = a ++ s.text ++ b := by
    intro l hl hmem
    cases l with
    | nil => exact absurd rfl hl
    | cons y t =>
      obtain ⟨r, hr⟩ := joinWithSpace_cons y t
      obtain ⟨s, hsmem, hstext⟩ := hmem y (by simp)
      constructor
      · rw [hr]
        refine str_append_ne_empty y r ?_
        rw [hstext]
        exact h2 s hsmem
      · refine ⟨s, hsmem, "", r, ?_⟩
        rw [hr, hstext]
        simp
  refine ⟨?_, ?_, ?_⟩
  · cases src
    · rw [filter_sentences_head]
      refine (key _ ?_ ?_).1
      · simpa using select_ne_nil ss mw h1
      · intro y hy
        obtain ⟨s, hsmem, hstext⟩ := List.mem_map.mp hy
        exact ⟨s, select_subset ss 0 mw s hsmem, hstext.symm⟩
    · rw [filter_sentences_tail]
      refine (key _ ?_ ?_).1
      · simpa using select_ne_nil ss.reverse mw (by simpa using h1)
      · intro y hy
        obtain ⟨s, hsmem, hstext⟩ := List.mem_map.mp (List.mem_reverse.mp hy)
        refine ⟨s, ?_, hstext.symm⟩
        exact List.mem_reverse.mp (select_subset ss.reverse 0 mw s hsmem)
  · cases src
    · rw [filter_sentences_head]
      refine (key _ ?_ ?_).2
      · simpa using select_ne_nil ss mw h1
      · intro y hy
        obtain ⟨s, hsmem, hstext⟩ := List.mem_map.mp hy
        exact ⟨s, select_subset ss 0 mw s hsmem, hstext.symm⟩
    · rw [filter_sentences_tail]
      refine (key _ ?_ ?_).2
      · simpa using select_ne_nil ss.reverse mw (by simpa using h1)
      · intro y hy
        obtain ⟨s, hsmem, hstext⟩ := List.mem_map.mp (List.mem_reverse.mp hy)
        refine ⟨s, ?_, hstext.symm⟩
        exact List.mem_reverse.mp (select_subset ss.reverse 0 mw s hsmem)
  · intro s hss
    subst hss
    cases src <;> simp [filter_sentences, select, joinWithSpace]

theorem C1_nonempty_output_witness :
    ([⟨30, "Hi."⟩] : List Sentence) ≠ [] ∧
    (∀ s ∈ ([⟨30, "Hi."⟩] : List Sentence), s.text ≠ "") ∧
    (filter_sentences [⟨30, "Hi."⟩] 1 false ≠ "" ∧
     (∃ s ∈ ([⟨30, "Hi."⟩] : List Sentence), ∃ a b,
       filter_sentences [⟨30, "Hi."⟩] 1 false = a ++ s.text ++ b) ∧
     (∀ s : Sentence, ([⟨30, "Hi."⟩] : List Sentence) = [s] →
       filter_sentences [⟨30, "Hi."⟩] 1 false = s.text)) :=
  ⟨by decide, by decide,
    C1_nonempty_output [⟨30, "Hi."⟩] 1 false (by decide) (by decide)⟩

/-- C2 as stated is false: the loop's first test is `word_count == 0`, the
running word count being zero, not the selection list being empty. After a
zero-word sentence is appended the selection is non-empty but the running
count is still 0, so the code appends a candidate that the claim's
condition rejects. With sentences of word counts 0 and 5 and budget 0, the
code keeps both sentences while the claim's loop keeps only the first,
and the two outputs differ. -/
theorem C2_counterexample :
    select [⟨0, "a"⟩, ⟨5, "b"⟩] 0 0 = [⟨0, "a"⟩, ⟨5, "b"⟩] ∧
    selectClaim [⟨0, "a"⟩, ⟨5, "b"⟩] true 0 0 = [⟨0, "a"⟩] ∧
    filter_sentences [⟨0, "a"⟩, ⟨5, "b"⟩] 0 false ≠
      filter_sentences_claim [⟨0, "a"⟩, ⟨5, "b"⟩] 0 false :=
  ⟨by decide, by decide, by decide⟩

/-- C2 (amended): in the chosen iteration order (document order, reversed
for RETAIN_TAIL), the loop selects a prefix; a candidate at position `i`
is appended exactly when the running word count (the total of positions
below `i`) is zero or admits the candidate within the budget; and at the
first failing position the loop stops, never skipping ahead. -/
theorem C2_greedy_characterization (ss : List Sentence) (mw : Nat) (src : Bool) :
    ∃ k, k ≤ (if src then ss.reverse else ss).length ∧
      select (if src then ss.reverse else ss) 0 mw =
        (if src then ss.reverse else ss).take k ∧
      (∀ i, i < k →
        wsum ((if src then ss.reverse else ss).take i) = 0 ∨
        wsum ((if src then ss.reverse else ss).take i) +
          ((if src then ss.reverse else ss).getD i ⟨0, ""⟩).word_count ≤ mw) ∧
      (k < (if src then ss.reverse else ss).length →
        ¬(wsum ((if src then ss.reverse else ss).take k) = 0 ∨
          wsum ((if src then ss.reverse else ss).take k) +
            ((if src then ss.reverse else ss).getD k ⟨0, ""⟩).word_count ≤ mw)) := by
  have h := select_spec mw (if src then ss.reverse else ss) 0
  simpa using h

theorem C2_greedy_characterization_witness :
    ∃ k, k ≤ 2 ∧
      select [⟨1, "a"⟩, ⟨9, "b"⟩] 0 5 =
        ([⟨1, "a"⟩, ⟨9, "b"⟩] : List Sentence).take k := by
  obtain ⟨k, hk, hsel, -, -⟩ :=
    C2_greedy_characterization [⟨1, "a"⟩, ⟨9, "b"⟩] 5 false
  exact ⟨k, hk, hsel⟩

/-- C7: a data row whose column count is not 2 makes the pipeline fail
with the exact error message naming the observed column count, and such a
row aborts the whole run (it is neither skipped nor padded); a row with
exactly 2 columns is never rejected. -/
theorem C7_row_validation (seg : String → List Sentence) (mw : Nat)
    (row : List String) :
    (row.length ≠ 2 →
      processRow seg mw row =
        Except.error ("Expected 2 cols (src, tgt). Received: " ++ toString row.length) ∧
      ∀ rs, processRows seg mw (row :: rs) =
        Except.error ("Expected 2 cols (src, tgt). Received: " ++ toString row.length)) ∧
    (row.length = 2 → ∃ out, processRow seg mw row = Except.ok out) := by
  constructor
  · intro hne
    have hpr : processRow seg mw row =
        Except.error ("Expected 2 cols (src, tgt). Received: " ++ toString row.length) := by
      simp only [processRow, if_neg hne]
    refine ⟨hpr, fun rs => ?_⟩
    simp only [processRows, hpr]
  · intro heq
    refine ⟨[filter_sentences (seg (row.getD 0 "")) mw true,
             filter_sentences (seg (row.getD 1 "")) mw false], ?_⟩
    simp only [processRow, if_pos heq]

theorem C7_row_validation_witness :
    processRow (fun _ => []) 5 ["x"] =
      Except.error "Expected 2 cols (src, tgt). Received: 1" ∧
    ∃ out, processRow (fun _ => []) 5 ["a", "b"] = Except.ok out := by
  constructor
  · have h := ((C7_row_validation (fun _ => []) 5 ["x"]).1 (by decide)).1
    simpa using h
  · exact (C7_row_validation (fun _ => []) 5 ["a", "b"]).2 rfl

/-- C8: on a stream of valid 2-column rows, the pipeline filters column 0
with `src = True` (RETAIN_TAIL) and column 1 with `src = False`
(RETAIN_HEAD), both with the same `max_words`, and emits
`[filtered_source, filtered_target]` for the rows in their original
order. -/
theorem C8_pipeline_rows (seg : String → List Sentence) (mw : Nat)
    (rows : List (List String)) (h : ∀ r ∈ rows, r.length = 2) :
    processRows seg mw rows =
      Except.ok (rows.map fun r =>
        [filter_sentences (seg (r.getD 0 "")) mw true,
         filter_sentences (seg (r.getD 1 "")) mw false]) := by
  induction rows with
  | nil => rfl
  | cons r rs ih =>
    have hr : r.length = 2 := h r (by simp)
    have hrow : processRow seg mw r =
        Except.ok [filter_sentences (seg (r.getD 0 "")) mw true,
                   filter_sentences (seg (r.getD 1 "")) mw false] := by
      simp only [processRow, if_pos hr]
    have hrest := ih (fun x hx => h x (by simp [hx]))
    simp only [processRows, hrow, hrest, List.map_cons]

theorem C8_pipeline_rows_witness :
    processRows (fun t => [⟨1, t⟩]) 5 [["x", "y"]] = Except.ok [["x", "y"]] :=
  (C8_pipeline_rows (fun t => [⟨1, t⟩]) 5 [["x", "y"]] (by decide)).trans
    (congrArg Except.ok (by decide))

/-- C9: `filter_sentences` is total and deterministic: for every input it
is defined (the embedding is a total function) and yields one string, and
any run on equal inputs yields that same string. -/
theorem C9_total_deterministic (ss : List Sentence) (mw : Nat) (src : Bool) :
    ∃ out : String, filter_sentences ss mw src = out ∧
      ∀ ss2 mw2 src2, ss2 = ss → mw2 = mw → src2 = src →
        filter_sentences ss2 mw2 src2 = out := by
  refine ⟨filter_sentences ss mw src, rfl, ?_⟩
  intro ss2 mw2 src2 e1 e2 e3
  rw [e1, e2, e3]

theorem C9_total_deterministic_witness :
    filter_sentences [⟨1, "a"⟩] 3 false = "a" := by
  obtain ⟨out, h1, h2⟩ := C9_total_deterministic [⟨1, "a"⟩] 3 false
  rw [h2 [⟨1, "a"⟩] 3 false rfl rfl rfl, ← h1]
  decide
